import Mathlib

/-!
# tree-mac: the Finder-like name comparator `findersort`

A shallow embedding of `mac_finder_sort.c` and the properties of its comparator.

* A C string is the list of its bytes before the terminating NUL, each byte an
  `unsigned char` value held in a `Nat`.
* `struct _info **` is `Option (Option (Info ρ))`: the outer `none` is a null argument
  pointer, `some none` a null entry, `some (some e)` an entry. `ρ` stands for the fields of
  `struct _info` other than `name` (declared in `tree.h`).
* The two CoreFoundation calls are parameters (`CoreFoundation σ`), `σ` being the type of
  the CFString objects; a `CFStringRef` that may be `NULL` is an `Option σ`.
* The global `reverse` is an explicit `Bool` argument.
-/

namespace TreeMac

/-- A C string: the bytes that precede the terminating NUL. -/
abbrev CStr := List Nat

/-- Well-formed C string contents: every byte is a nonzero `unsigned char`. -/
def IsCStr (s : CStr) : Prop := ∀ b ∈ s, 0 < b ∧ b < 256

instance instDecidableIsCStr (s : CStr) : Decidable (IsCStr s) :=
  inferInstanceAs (Decidable (∀ b ∈ s, 0 < b ∧ b < 256))

/-- The libc function `strcmp`: walk both strings while the bytes agree, stop with 0 at a
common NUL, otherwise return the difference of the first two bytes that differ, read as
`unsigned char`. The end of a list is the terminating NUL (byte 0). -/
def strcmp : CStr → CStr → Int
  | [], [] => 0
  | [], b :: _ => (0 : Int) - (b : Int)
  | a :: _, [] => (a : Int) - (0 : Int)
  | a :: s, b :: t =>
    if a ≠ b then (a : Int) - (b : Int)
    else if a = 0 then 0
    else strcmp s t

/-- The part of `struct _info` the comparator reads: `name`, a `char *` that may be `NULL`.
The remaining fields of the struct are kept as `other`. -/
structure Info (ρ : Type) where
  name : Option CStr
  other : ρ
deriving DecidableEq

/-- The `CFComparisonResult` value `kCFCompareLessThan`. -/
def kCFCompareLessThan : Int := -1

/-- The `CFComparisonResult` value `kCFCompareEqualTo`. -/
def kCFCompareEqualTo : Int := 0

/-- The `CFComparisonResult` value `kCFCompareGreaterThan`. -/
def kCFCompareGreaterThan : Int := 1

/-- The `CFStringCompareFlags` bit `kCFCompareLocalized`. -/
def kCFCompareLocalized : Nat := 32

/-- The `CFStringCompareFlags` bit `kCFCompareNumerically`. -/
def kCFCompareNumerically : Nat := 64

/-- The `CFStringCompareFlags` bit `kCFCompareDiacriticInsensitive`. -/
def kCFCompareDiacriticInsensitive : Nat := 128

/-- The `CFStringCompareFlags` bit `kCFCompareWidthInsensitive`. -/
def kCFCompareWidthInsensitive : Nat := 256

/-- The two CoreFoundation functions `findersort` calls, over CFString objects of type `σ`.
`CFStringCreateWithFileSystemRepresentation` returns `none` for a `NULL` result;
`CFStringCompare` takes the two strings and the option flags and returns a
`CFComparisonResult`, a signed integer. -/
structure CoreFoundation (σ : Type) where
  CFStringCreateWithFileSystemRepresentation : CStr → Option σ
  CFStringCompare : σ → σ → Nat → Int

/-- The comparator `findersort(a, b)` of `mac_finder_sort.c`, with the global `reverse`
as an argument. -/
def findersort {σ ρ : Type} (cf : CoreFoundation σ) (reverse : Bool)
    (a b : Option (Option (Info ρ))) : Int :=
  match a, b with
  | some (some ea), some (some eb) =>
    let n1 : CStr := match ea.name with
      | some n => n
      | none => []
    let n2 : CStr := match eb.name with
      | some n => n
      | none => []
    let s1 := cf.CFStringCreateWithFileSystemRepresentation n1
    let s2 := cf.CFStringCreateWithFileSystemRepresentation n2
    let result : Int :=
      match s1, s2 with
      | some c1, some c2 =>
        let flags := kCFCompareLocalized ||| kCFCompareNumerically
          ||| kCFCompareDiacriticInsensitive ||| kCFCompareWidthInsensitive
        let r := cf.CFStringCompare c1 c2 flags
        let result : Int :=
          if r = kCFCompareLessThan then -1
          else if r = kCFCompareGreaterThan then 1
          else 0
        if result = 0 then
          let result := strcmp n1 n2
          if result < 0 then -1
          else if result > 0 then 1
          else 0
        else result
      | _, _ =>
        let v := strcmp n1 n2
        if v < 0 then -1
        else if v > 0 then 1
        else 0
    if reverse then -result else result
  | _, _ => 0

/-- The name the comparator works on: `name`, or the empty string when `name` is `NULL`. -/
def Info.nameOrEmpty {ρ : Type} (e : Info ρ) : CStr :=
  match e.name with
  | some n => n
  | none => []

/-- The option flags `findersort` passes to `CFStringCompare`. -/
def finderFlags : Nat :=
  kCFCompareLocalized ||| kCFCompareNumerically
    ||| kCFCompareDiacriticInsensitive ||| kCFCompareWidthInsensitive

/-- A non-null argument pointing to a non-null entry. -/
def entry {ρ : Type} (e : Info ρ) : Option (Option (Info ρ)) := some (some e)

/-! ### Sample instances used to evaluate the comparator on concrete names -/

/-- A sample engine that always constructs and compares names by length (shorter first),
so that it reports LESS for `img2` against `img10`. -/
def lengthCF : CoreFoundation CStr where
  CFStringCreateWithFileSystemRepresentation := fun n => some n
  CFStringCompare := fun s t _ =>
    if s.length < t.length then -1 else if t.length < s.length then 1 else 0

/-- A sample engine that always constructs and reports EQUAL for every pair. -/
def equalCF : CoreFoundation CStr where
  CFStringCreateWithFileSystemRepresentation := fun n => some n
  CFStringCompare := fun _ _ _ => 0

/-- A sample engine whose construction always fails. -/
def failCF : CoreFoundation Unit where
  CFStringCreateWithFileSystemRepresentation := fun _ => none
  CFStringCompare := fun _ _ _ => 1

/-- A sample engine that constructs only for names of at most four bytes and, when it
does, reports GREATER. -/
def shortCF : CoreFoundation CStr where
  CFStringCreateWithFileSystemRepresentation := fun n => if n.length ≤ 4 then some n else none
  CFStringCompare := fun _ _ _ => 1

/-- An entry with the given name and no further data. -/
def named (n : CStr) : Info Unit := ⟨some n, ()⟩

/-- An entry whose `name` is `NULL`. -/
def nameless : Info Unit := ⟨none, ()⟩

/-- The bytes of `"img2"`. -/
def img2 : CStr := [105, 109, 103, 50]

/-- The bytes of `"img10"`. -/
def img10 : CStr := [105, 109, 103, 49, 48]

/-- The UTF-8 bytes of `"café"`. -/
def cafeAcute : CStr := [99, 97, 102, 195, 169]

/-- The bytes of `"cafe"`. -/
def cafePlain : CStr := [99, 97, 102, 101]

/-- The UTF-8 bytes of the fullwidth `"Ａ"` (U+FF21). -/
def fullwidthA : CStr := [239, 188, 161]

/-- The bytes of the halfwidth `"A"`. -/
def halfwidthA : CStr := [65]

/-- The bytes of `"img10.txt"`. -/
def img10Txt : CStr := [105, 109, 103, 49, 48, 46, 116, 120, 116]

/-- The bytes of `"img2.txt"`. -/
def img2Txt : CStr := [105, 109, 103, 50, 46, 116, 120, 116]

/-- The UTF-8 bytes of `"café.txt"`. -/
def cafeAcuteTxt : CStr := [99, 97, 102, 195, 169, 46, 116, 120, 116]

/-- The bytes of `"cafe.txt"`. -/
def cafePlainTxt : CStr := [99, 97, 102, 101, 46, 116, 120, 116]

/-- The UTF-8 bytes of `"Ａpple"`, with a fullwidth first letter. -/
def fullwidthApple : CStr := [239, 188, 161, 112, 112, 108, 101]

/-- The bytes of `"Apple"`. -/
def halfwidthApple : CStr := [65, 112, 112, 108, 101]

/-- The list of the end-to-end example, as entries. -/
def sampleList : List (Info Unit) :=
  [named img10Txt, named img2Txt, named cafeAcuteTxt, named cafePlainTxt,
   named fullwidthApple, named halfwidthApple]

/-- The end-to-end example sorted ascending with the reversal flag clear, under the
length-comparing sample engine. -/
def sampleSorted : List (Info Unit) :=
  [named halfwidthApple, named fullwidthApple, named cafePlainTxt, named img2Txt,
   named cafeAcuteTxt, named img10Txt]

/-- The end-to-end example sorted ascending with the reversal flag set, under the
length-comparing sample engine. -/
def sampleSortedReverse : List (Info Unit) :=
  [named img10Txt, named cafeAcuteTxt, named img2Txt, named cafePlainTxt,
   named fullwidthApple, named halfwidthApple]

/-- Ascending order under `findersort` for a given value of `reverse`: the comparator does
not put the later of two entries before the earlier one. -/
def Ascending {σ ρ : Type} (cf : CoreFoundation σ) (reverse : Bool) (x y : Info ρ) : Prop :=
  findersort cf reverse (entry x) (entry y) ≤ 0

instance instDecidableAscending {σ ρ : Type} (cf : CoreFoundation σ) (reverse : Bool)
    (x y : Info ρ) : Decidable (Ascending cf reverse x y) :=
  inferInstanceAs (Decidable (findersort cf reverse (entry x) (entry y) ≤ 0))

/-! ### The comparator with the CFString bookkeeping as explicit state -/

/-- The CoreFoundation bookkeeping a call can affect. `live` holds one item per reference
that is owned and not yet released (most recent first); `created`, `released` and
`compared` log the successful creations, the `CFRelease` calls and the `CFStringCompare`
calls made so far (most recent first). -/
structure CFState (σ : Type) where
  live : List σ
  created : List σ
  released : List σ
  compared : List (σ × σ)
deriving DecidableEq

/-- The call `CFStringCreateWithFileSystemRepresentation(kCFAllocatorDefault, n)` on the
state: a successful creation hands one owned reference to the caller. -/
def createString {σ : Type} (cf : CoreFoundation σ) (n : CStr) (st : CFState σ) :
    Option σ × CFState σ :=
  match cf.CFStringCreateWithFileSystemRepresentation n with
  | some c => (some c, ⟨c :: st.live, c :: st.created, st.released, st.compared⟩)
  | none => (none, st)

/-- The call `CFStringCompare(c1, c2, flags)` on the state: it owns nothing and is logged. -/
def compareString {σ : Type} (cf : CoreFoundation σ) (c1 c2 : σ) (flags : Nat)
    (st : CFState σ) : Int × CFState σ :=
  (cf.CFStringCompare c1 c2 flags, ⟨st.live, st.created, st.released, (c1, c2) :: st.compared⟩)

/-- The call `CFRelease(c)` on the state: one owned reference to `c` is given back. -/
def CFRelease {σ : Type} [DecidableEq σ] (c : σ) (st : CFState σ) : CFState σ :=
  ⟨st.live.erase c, st.created, c :: st.released, st.compared⟩

/-- The comparator `findersort(a, b)` of `mac_finder_sort.c` with its effect on the
CoreFoundation bookkeeping: the result and the state when the call returns. -/
def findersortM {σ ρ : Type} [DecidableEq σ] (cf : CoreFoundation σ) (reverse : Bool)
    (a b : Option (Option (Info ρ))) (st : CFState σ) : Int × CFState σ :=
  match a, b with
  | some (some ea), some (some eb) =>
    let n1 : CStr := match ea.name with
      | some n => n
      | none => []
    let n2 : CStr := match eb.name with
      | some n => n
      | none => []
    let r1 := createString cf n1 st
    let s1 := r1.1
    let r2 := createString cf n2 r1.2
    let s2 := r2.1
    let body : Int × CFState σ :=
      match s1, s2 with
      | some c1, some c2 =>
        let flags := kCFCompareLocalized ||| kCFCompareNumerically
          ||| kCFCompareDiacriticInsensitive ||| kCFCompareWidthInsensitive
        let rc := compareString cf c1 c2 flags r2.2
        let r := rc.1
        let result : Int :=
          if r = kCFCompareLessThan then -1
          else if r = kCFCompareGreaterThan then 1
          else 0
        if result = 0 then
          let result := strcmp n1 n2
          (if result < 0 then -1
            else if result > 0 then 1
            else 0, rc.2)
        else (result, rc.2)
      | _, _ =>
        let v := strcmp n1 n2
        (if v < 0 then -1
          else if v > 0 then 1
          else 0, r2.2)
    let st3 := match s1 with
      | some c => CFRelease c body.2
      | none => body.2
    let st4 := match s2 with
      | some c => CFRelease c st3
      | none => st3
    (if reverse then -body.1 else body.1, st4)
  | _, _ => (0, st)

/-- A sample engine that compares names by length and cannot be constructed for the
one-byte name `"b"`. -/
def gapCF : CoreFoundation CStr where
  CFStringCreateWithFileSystemRepresentation := fun n => if n = [98] then none else some n
  CFStringCompare := fun s t _ =>
    if s.length < t.length then -1 else if t.length < s.length then 1 else 0

/-- A sample engine that always constructs and whose primitive returns the difference of
the two lengths, a value of arbitrary magnitude. -/
def diffCF : CoreFoundation CStr where
  CFStringCreateWithFileSystemRepresentation := fun n => some n
  CFStringCompare := fun s t _ => (s.length : Int) - (t.length : Int)

/-- The bytes of `"aa"`. -/
def nameAA : CStr := [97, 97]

/-- The bytes of `"aaa"`. -/
def nameAAA : CStr := [97, 97, 97]

/-- The bytes of `"b"`. -/
def nameB : CStr := [98]

/-- The bytes of `"c"`. -/
def nameC : CStr := [99]

/-- A bookkeeping state with nothing live and empty logs. -/
def emptyState : CFState CStr := ⟨[], [], [], []⟩

/-- A bookkeeping state in which the caller already owns a reference to `"img2"`. -/
def busyState : CFState CStr := ⟨[img2], [img2], [], []⟩

/-! ### Facts about `strcmp` -/

theorem strcmp_self (s : CStr) : strcmp s s = 0 := by
  induction s with
  | nil => rfl
  | cons a s ih => simp [strcmp, ih]

theorem strcmp_swap (s t : CStr) : strcmp t s = -strcmp s t := by
  induction s generalizing t with
  | nil => cases t <;> simp [strcmp]
  | cons a s ih =>
    cases t with
    | nil => simp [strcmp]
    | cons b t =>
      by_cases hab : a = b
      · subst hab
        by_cases h0 : a = 0
        · simp [strcmp, h0]
        · simp [strcmp, h0, ih t]
      · have hba : ¬ b = a := fun h => hab h.symm
        simp [strcmp, hab, hba]

theorem strcmp_eq_zero {s t : CStr} (hs : IsCStr s) (ht : IsCStr t) (h : strcmp s t = 0) :
    s = t := by
  induction s generalizing t with
  | nil =>
    cases t with
    | nil => rfl
    | cons b t =>
      have hb := (ht b (List.mem_cons_self b t)).1
      simp [strcmp] at h
      omega
  | cons a s ih =>
    have ha := (hs a (List.mem_cons_self a s)).1
    cases t with
    | nil =>
      simp [strcmp] at h
      omega
    | cons b t =>
      by_cases hab : a = b
      · subst hab
        have h0 : ¬ a = 0 := by omega
        simp [strcmp, h0] at h
        rw [ih (fun c hc => hs c (List.mem_cons_of_mem a hc))
          (fun c hc => ht c (List.mem_cons_of_mem a hc)) h]
      · simp [strcmp, hab] at h
        omega

theorem strcmp_trans {a b c : CStr} (hab : strcmp a b ≤ 0) (hbc : strcmp b c ≤ 0) :
    strcmp a c ≤ 0 := by
  induction a generalizing b c with
  | nil => cases c <;> simp [strcmp]
  | cons x a ih =>
    cases b with
    | nil =>
      cases c with
      | nil => simpa [strcmp] using hab
      | cons z c =>
        simp [strcmp] at hab hbc ⊢
        subst hab
        by_cases hz : z = 0
        · simp [hz]
        · simp [Ne.symm hz]
    | cons y b =>
      cases c with
      | nil =>
        simp only [strcmp] at hab hbc ⊢
        split_ifs at hab hbc <;> omega
      | cons z c =>
        simp only [strcmp] at hab hbc ⊢
        split_ifs at hab hbc ⊢ <;> first | omega | exact ih hab hbc

theorem sign_ite (v : Int) : (if v < 0 then (-1 : Int) else if v > 0 then 1 else 0) = Int.sign v := by
  rcases lt_trichotomy v 0 with h | h | h
  · simp [h, Int.sign_eq_neg_one_of_neg h]
  · simp [h]
  · have h' : ¬ v < 0 := by omega
    simp [h, h', Int.sign_eq_one_of_pos h]

/-! ### Closed forms of `findersort` on two entries -/

theorem findersort_null_left {σ ρ : Type} (cf : CoreFoundation σ) (reverse : Bool)
    (a b : Option (Option (Info ρ))) (h : a = none ∨ a = some none) :
    findersort cf reverse a b = 0 := by
  rcases h with rfl | rfl <;> simp [findersort]

theorem findersort_null_right {σ ρ : Type} (cf : CoreFoundation σ) (reverse : Bool)
    (a b : Option (Option (Info ρ))) (h : b = none ∨ b = some none) :
    findersort cf reverse a b = 0 := by
  rcases h with rfl | rfl <;> rcases a with _ | _ | ea <;> simp [findersort]

theorem findersort_engine {σ ρ : Type} (cf : CoreFoundation σ) (reverse : Bool)
    (ea eb : Info ρ) (c1 c2 : σ)
    (h1 : cf.CFStringCreateWithFileSystemRepresentation ea.nameOrEmpty = some c1)
    (h2 : cf.CFStringCreateWithFileSystemRepresentation eb.nameOrEmpty = some c2) :
    findersort cf reverse (entry ea) (entry eb) =
      (if reverse then
        -(if cf.CFStringCompare c1 c2 finderFlags = -1 then -1
          else if cf.CFStringCompare c1 c2 finderFlags = 1 then 1
          else Int.sign (strcmp ea.nameOrEmpty eb.nameOrEmpty))
      else
        (if cf.CFStringCompare c1 c2 finderFlags = -1 then -1
          else if cf.CFStringCompare c1 c2 finderFlags = 1 then 1
          else Int.sign (strcmp ea.nameOrEmpty eb.nameOrEmpty))) := by
  have hf : (kCFCompareLocalized ||| kCFCompareNumerically ||| kCFCompareDiacriticInsensitive
      ||| kCFCompareWidthInsensitive) = finderFlags := rfl
  unfold Info.nameOrEmpty at h1 h2
  simp only [findersort, entry, Info.nameOrEmpty, h1, h2, hf,
    kCFCompareLessThan, kCFCompareGreaterThan, sign_ite]
  by_cases hl : cf.CFStringCompare c1 c2 finderFlags = -1
  · simp [hl]
  · by_cases hg : cf.CFStringCompare c1 c2 finderFlags = 1
    · simp [hg]
    · simp [hl, hg]

theorem findersort_no_engine {σ ρ : Type} (cf : CoreFoundation σ) (reverse : Bool)
    (ea eb : Info ρ)
    (h : cf.CFStringCreateWithFileSystemRepresentation ea.nameOrEmpty = none
      ∨ cf.CFStringCreateWithFileSystemRepresentation eb.nameOrEmpty = none) :
    findersort cf reverse (entry ea) (entry eb) =
      (if reverse then -Int.sign (strcmp ea.nameOrEmpty eb.nameOrEmpty)
      else Int.sign (strcmp ea.nameOrEmpty eb.nameOrEmpty)) := by
  unfold Info.nameOrEmpty at h
  rcases h with h | h
  · simp only [findersort, entry, Info.nameOrEmpty, h, sign_ite]
  · cases h1 : cf.CFStringCreateWithFileSystemRepresentation
        (match ea.name with
          | some n => n
          | none => [])
    · simp only [findersort, entry, Info.nameOrEmpty, h, h1, sign_ite]
    · simp only [findersort, entry, Info.nameOrEmpty, h, h1, sign_ite]

theorem sign_cases (v : Int) : Int.sign v = -1 ∨ Int.sign v = 0 ∨ Int.sign v = 1 := by
  rcases lt_trichotomy v 0 with h | h | h
  · exact Or.inl (Int.sign_eq_neg_one_of_neg h)
  · exact Or.inr (Or.inl (by simp [h]))
  · exact Or.inr (Or.inr (Int.sign_eq_one_of_pos h))

theorem sign_strcmp_swap (s t : CStr) : Int.sign (strcmp t s) = -Int.sign (strcmp s t) := by
  rw [strcmp_swap s t, Int.sign_neg]

/-- Every pair of arguments is a null case or a pair of entries. -/
theorem args_cases {ρ : Type} (a b : Option (Option (Info ρ))) :
    (a = none ∨ a = some none) ∨ (b = none ∨ b = some none)
      ∨ ∃ ea eb, a = entry ea ∧ b = entry eb := by
  rcases a with _ | _ | ea
  · exact Or.inl (Or.inl rfl)
  · exact Or.inl (Or.inr rfl)
  · rcases b with _ | _ | eb
    · exact Or.inr (Or.inl (Or.inl rfl))
    · exact Or.inr (Or.inl (Or.inr rfl))
    · exact Or.inr (Or.inr ⟨ea, eb, rfl, rfl⟩)

/-- The value on two entries with the flag clear is -1, 0 or 1 and is 0 only when `strcmp`
of the two names is 0. -/
theorem findersort_entry_cases {σ ρ : Type} (cf : CoreFoundation σ) (ea eb : Info ρ) :
    findersort cf false (entry ea) (entry eb) = -1
      ∨ findersort cf false (entry ea) (entry eb) = 1
      ∨ (findersort cf false (entry ea) (entry eb) = 0
          ∧ strcmp ea.nameOrEmpty eb.nameOrEmpty = 0) := by
  have hs := sign_cases (strcmp ea.nameOrEmpty eb.nameOrEmpty)
  have hz : Int.sign (strcmp ea.nameOrEmpty eb.nameOrEmpty) = 0 →
      strcmp ea.nameOrEmpty eb.nameOrEmpty = 0 := Int.sign_eq_zero_iff_zero.mp
  cases h1 : cf.CFStringCreateWithFileSystemRepresentation ea.nameOrEmpty with
  | none =>
    rw [findersort_no_engine cf false ea eb (Or.inl h1)]
    simp only [Bool.false_eq_true, if_false]
    rcases hs with h | h | h
    · exact Or.inl h
    · exact Or.inr (Or.inr ⟨h, hz h⟩)
    · exact Or.inr (Or.inl h)
  | some c1 =>
    cases h2 : cf.CFStringCreateWithFileSystemRepresentation eb.nameOrEmpty with
    | none =>
      rw [findersort_no_engine cf false ea eb (Or.inr h2)]
      simp only [Bool.false_eq_true, if_false]
      rcases hs with h | h | h
      · exact Or.inl h
      · exact Or.inr (Or.inr ⟨h, hz h⟩)
      · exact Or.inr (Or.inl h)
    | some c2 =>
      rw [findersort_engine cf false ea eb c1 c2 h1 h2]
      simp only [Bool.false_eq_true, if_false]
      split_ifs with hl hg
      · exact Or.inl rfl
      · exact Or.inr (Or.inl rfl)
      · rcases hs with h | h | h
        · exact Or.inl h
        · exact Or.inr (Or.inr ⟨h, hz h⟩)
        · exact Or.inr (Or.inl h)

theorem findersort_reverse {σ ρ : Type} (cf : CoreFoundation σ)
    (a b : Option (Option (Info ρ))) :
    findersort cf true a b = -findersort cf false a b := by
  rcases a with _ | _ | ea <;> rcases b with _ | _ | eb <;> simp [findersort]

/-! ### The sample engines -/

theorem lengthCF_swap (s t : CStr) :
    lengthCF.CFStringCompare s t finderFlags = kCFCompareLessThan
      ↔ lengthCF.CFStringCompare t s finderFlags = kCFCompareGreaterThan := by
  simp only [lengthCF, kCFCompareLessThan, kCFCompareGreaterThan]
  by_cases h1 : s.length < t.length
  · have h2 : ¬ t.length < s.length := by omega
    simp [h1, h2]
  · by_cases h2 : t.length < s.length
    · simp [h1, h2]
    · simp [h1, h2]

theorem lengthCF_trans (s t u : CStr)
    (hst : lengthCF.CFStringCompare s t finderFlags ≠ kCFCompareGreaterThan)
    (htu : lengthCF.CFStringCompare t u finderFlags ≠ kCFCompareGreaterThan) :
    lengthCF.CFStringCompare s u finderFlags ≠ kCFCompareGreaterThan := by
  simp only [lengthCF, kCFCompareLessThan, kCFCompareGreaterThan] at hst htu ⊢
  split_ifs at hst htu ⊢ <;> omega

/-! ### Order properties of `findersort` on entries -/

theorem sign_nonpos_iff (v : Int) : Int.sign v ≤ 0 ↔ v ≤ 0 := by
  rcases lt_trichotomy v 0 with h | h | h
  · rw [Int.sign_eq_neg_one_of_neg h]; omega
  · subst h; simp
  · rw [Int.sign_eq_one_of_pos h]; omega

/-- Swapping the two entries negates the result when the primitive swaps LESS and GREATER. -/
theorem findersort_swap {σ ρ : Type} (cf : CoreFoundation σ)
    (hswap : ∀ s t, cf.CFStringCompare s t finderFlags = kCFCompareLessThan
      ↔ cf.CFStringCompare t s finderFlags = kCFCompareGreaterThan)
    (ea eb : Info ρ) :
    findersort cf false (entry ea) (entry eb) = -findersort cf false (entry eb) (entry ea) := by
  have hs := sign_strcmp_swap ea.nameOrEmpty eb.nameOrEmpty
  cases h1 : cf.CFStringCreateWithFileSystemRepresentation ea.nameOrEmpty with
  | none =>
    rw [findersort_no_engine cf false ea eb (Or.inl h1),
      findersort_no_engine cf false eb ea (Or.inr h1)]
    simp [hs]
  | some c1 =>
    cases h2 : cf.CFStringCreateWithFileSystemRepresentation eb.nameOrEmpty with
    | none =>
      rw [findersort_no_engine cf false ea eb (Or.inr h2),
        findersort_no_engine cf false eb ea (Or.inl h2)]
      simp [hs]
    | some c2 =>
      rw [findersort_engine cf false ea eb c1 c2 h1 h2,
        findersort_engine cf false eb ea c2 c1 h2 h1]
      have h12 := hswap c1 c2
      have h21 := hswap c2 c1
      simp only [kCFCompareLessThan, kCFCompareGreaterThan] at h12 h21
      simp only [Bool.false_eq_true, if_false]
      by_cases hl : cf.CFStringCompare c1 c2 finderFlags = -1
      · have hg := h12.mp hl
        simp [hl, hg]
      · by_cases hg : cf.CFStringCompare c1 c2 finderFlags = 1
        · have hl' := h21.mpr hg
          simp [hl, hg, hl']
        · have hn1 : ¬ cf.CFStringCompare c2 c1 finderFlags = 1 := fun h => hl (h12.mpr h)
          have hn2 : ¬ cf.CFStringCompare c2 c1 finderFlags = -1 := fun h => hg (h21.mp h)
          simp [hl, hg, hn1, hn2, hs]

/-- With the engine constructed for both names, the result is at most 0 exactly when the
primitive reports LESS, or reports neither LESS nor GREATER and `strcmp` is at most 0. -/
theorem findersort_engine_le {σ ρ : Type} (cf : CoreFoundation σ) (ea eb : Info ρ)
    (c1 c2 : σ)
    (h1 : cf.CFStringCreateWithFileSystemRepresentation ea.nameOrEmpty = some c1)
    (h2 : cf.CFStringCreateWithFileSystemRepresentation eb.nameOrEmpty = some c2) :
    findersort cf false (entry ea) (entry eb) ≤ 0 ↔
      (cf.CFStringCompare c1 c2 finderFlags = -1
        ∨ (cf.CFStringCompare c1 c2 finderFlags ≠ 1
          ∧ strcmp ea.nameOrEmpty eb.nameOrEmpty ≤ 0)) := by
  rw [findersort_engine cf false ea eb c1 c2 h1 h2]
  simp only [Bool.false_eq_true, if_false]
  by_cases hl : cf.CFStringCompare c1 c2 finderFlags = -1
  · simp [hl]
  · by_cases hg : cf.CFStringCompare c1 c2 finderFlags = 1
    · simp [hl, hg]
    · simp [hl, hg, sign_nonpos_iff]

/-- Transitivity of the ascending relation when the primitive is a total preorder and the
engine is constructed for the three names. -/
theorem findersort_engine_trans {σ ρ : Type} (cf : CoreFoundation σ)
    (hswap : ∀ s t, cf.CFStringCompare s t finderFlags = kCFCompareLessThan
      ↔ cf.CFStringCompare t s finderFlags = kCFCompareGreaterThan)
    (htrans : ∀ s t u, cf.CFStringCompare s t finderFlags ≠ kCFCompareGreaterThan →
      cf.CFStringCompare t u finderFlags ≠ kCFCompareGreaterThan →
      cf.CFStringCompare s u finderFlags ≠ kCFCompareGreaterThan)
    (ea eb ec : Info ρ) (c1 c2 c3 : σ)
    (h1 : cf.CFStringCreateWithFileSystemRepresentation ea.nameOrEmpty = some c1)
    (h2 : cf.CFStringCreateWithFileSystemRepresentation eb.nameOrEmpty = some c2)
    (h3 : cf.CFStringCreateWithFileSystemRepresentation ec.nameOrEmpty = some c3)
    (hab : findersort cf false (entry ea) (entry eb) ≤ 0)
    (hbc : findersort cf false (entry eb) (entry ec) ≤ 0) :
    findersort cf false (entry ea) (entry ec) ≤ 0 := by
  rw [findersort_engine_le cf ea eb c1 c2 h1 h2] at hab
  rw [findersort_engine_le cf eb ec c2 c3 h2 h3] at hbc
  rw [findersort_engine_le cf ea ec c1 c3 h1 h3]
  simp only [kCFCompareLessThan, kCFCompareGreaterThan] at hswap htrans
  have g12 : cf.CFStringCompare c1 c2 finderFlags ≠ 1 := by
    rcases hab with h | h
    · rw [h]; decide
    · exact h.1
  have g23 : cf.CFStringCompare c2 c3 finderFlags ≠ 1 := by
    rcases hbc with h | h
    · rw [h]; decide
    · exact h.1
  have g13 : cf.CFStringCompare c1 c3 finderFlags ≠ 1 := htrans c1 c2 c3 g12 g23
  by_cases l13 : cf.CFStringCompare c1 c3 finderFlags = -1
  · exact Or.inl l13
  · have g31 : cf.CFStringCompare c3 c1 finderFlags ≠ 1 := fun h => l13 ((hswap c1 c3).mpr h)
    have l12 : cf.CFStringCompare c1 c2 finderFlags ≠ -1 := fun h =>
      htrans c2 c3 c1 g23 g31 ((hswap c1 c2).mp h)
    have l23 : cf.CFStringCompare c2 c3 finderFlags ≠ -1 := fun h =>
      htrans c3 c1 c2 g31 g12 ((hswap c2 c3).mp h)
    refine Or.inr ⟨g13, ?_⟩
    rcases hab with h | h
    · exact absurd h l12
    · rcases hbc with h' | h'
      · exact absurd h' l23
      · exact strcmp_trans h.2 h'.2

/-- Two entries with well-formed names that compare 0 carry the same bytes. -/
theorem findersort_eq_zero_names {σ ρ : Type} (cf : CoreFoundation σ) (ea eb : Info ρ)
    (ha : IsCStr ea.nameOrEmpty) (hb : IsCStr eb.nameOrEmpty)
    (h : findersort cf false (entry ea) (entry eb) = 0) :
    ea.nameOrEmpty = eb.nameOrEmpty := by
  rcases findersort_entry_cases cf ea eb with h' | h' | h'
  · rw [h'] at h; exact absurd h (by decide)
  · rw [h'] at h; exact absurd h (by decide)
  · exact strcmp_eq_zero ha hb h'.2

/-- Two permutations of each other that are both pairwise ordered by a relation that is
antisymmetric on their elements are the same list. -/
theorem pairwise_perm_unique {α : Type} (r : α → α → Prop) (l₁ : List α) :
    ∀ l₂ : List α, l₁.Perm l₂ → l₁.Pairwise r → l₂.Pairwise r →
      (∀ a ∈ l₁, ∀ b ∈ l₁, r a b → r b a → a = b) → l₁ = l₂ := by
  induction l₁ with
  | nil =>
    intro l₂ hp _ _ _
    exact hp.nil_eq
  | cons a t ih =>
    intro l₂ hp h₁ h₂ hanti
    cases l₂ with
    | nil => exact absurd hp.symm.nil_eq (by simp)
    | cons b u =>
      have hab : a = b := by
        by_contra hne
        have ha : a ∈ u := by
          have : a ∈ b :: u := hp.mem_iff.mp (List.mem_cons_self a t)
          rcases List.mem_cons.mp this with h | h
          · exact absurd h hne
          · exact h
        have hb : b ∈ t := by
          have : b ∈ a :: t := hp.mem_iff.mpr (List.mem_cons_self b u)
          rcases List.mem_cons.mp this with h | h
          · exact absurd h.symm hne
          · exact h
        have rba : r b a := (List.pairwise_cons.mp h₂).1 a ha
        have rab : r a b := (List.pairwise_cons.mp h₁).1 b hb
        exact hne (hanti a (List.mem_cons_self a t) b (List.mem_cons_of_mem a hb) rab rba)
      subst hab
      have hp' : t.Perm u := hp.cons_inv
      rw [ih u hp' (List.pairwise_cons.mp h₁).2 (List.pairwise_cons.mp h₂).2
        (fun x hx y hy => hanti x (List.mem_cons_of_mem a hx) y (List.mem_cons_of_mem a hy))]

/-! ### Properties of the comparator -/

/-- C1: for every pair of arguments (null pointers, null entries, names present or absent),
every collation primitive, every outcome of engine construction and every value of the
reversal flag, `findersort` returns exactly one of -1, 0 or 1. -/
theorem findersort_result_range {σ ρ : Type} (cf : CoreFoundation σ) (reverse : Bool)
    (a b : Option (Option (Info ρ))) :
    findersort cf reverse a b = -1 ∨ findersort cf reverse a b = 0
      ∨ findersort cf reverse a b = 1 := by
  have key : findersort cf false a b = -1 ∨ findersort cf false a b = 0
      ∨ findersort cf false a b = 1 := by
    rcases args_cases a b with h | h | ⟨ea, eb, rfl, rfl⟩
    · exact Or.inr (Or.inl (findersort_null_left cf false a b h))
    · exact Or.inr (Or.inl (findersort_null_right cf false a b h))
    · rcases findersort_entry_cases cf ea eb with h | h | h
      · exact Or.inl h
      · exact Or.inr (Or.inr h)
      · exact Or.inr (Or.inl h.1)
  cases reverse with
  | false => exact key
  | true =>
    rw [findersort_reverse]
    rcases key with h | h | h <;> rw [h] <;> decide

/-- C2: reversal is pure negation. With the reversal flag set `findersort` returns the
arithmetic negation of what it returns with the flag clear, for all arguments and every
engine; in particular a result 0 stays 0. -/
theorem findersort_reverse_is_negation {σ ρ : Type} (cf : CoreFoundation σ)
    (a b : Option (Option (Info ρ))) :
    findersort cf true a b = -findersort cf false a b
      ∧ (findersort cf false a b = 0 ↔ findersort cf true a b = 0) := by
  have h := findersort_reverse cf a b
  refine ⟨h, ?_⟩
  rw [h]
  omega

/-- C3: byte-different names never compare equal. For two non-null entries whose
(substituted) names are well-formed C strings with different bytes, `findersort` is
nonzero for every collation primitive, every engine-construction outcome and every value
of the reversal flag. -/
theorem findersort_ne_zero_of_names_ne {σ ρ : Type} (cf : CoreFoundation σ) (reverse : Bool)
    (ea eb : Info ρ) (ha : IsCStr ea.nameOrEmpty) (hb : IsCStr eb.nameOrEmpty)
    (hne : ea.nameOrEmpty ≠ eb.nameOrEmpty) :
    findersort cf reverse (entry ea) (entry eb) ≠ 0 := by
  have key : findersort cf false (entry ea) (entry eb) ≠ 0 := by
    rcases findersort_entry_cases cf ea eb with h | h | h
    · rw [h]; decide
    · rw [h]; decide
    · exact absurd (strcmp_eq_zero ha hb h.2) hne
  cases reverse with
  | false => exact key
  | true =>
    rw [findersort_reverse]
    omega

/-- Witness of C3: `"café"` against `"cafe"` and fullwidth `"Ａ"` against halfwidth `"A"`,
with a primitive that reports EQUAL. -/
theorem findersort_ne_zero_of_names_ne_witness :
    (IsCStr (named cafeAcute).nameOrEmpty ∧ IsCStr (named cafePlain).nameOrEmpty
      ∧ (named cafeAcute).nameOrEmpty ≠ (named cafePlain).nameOrEmpty
      ∧ equalCF.CFStringCompare cafeAcute cafePlain finderFlags = kCFCompareEqualTo
      ∧ findersort equalCF false (entry (named cafeAcute)) (entry (named cafePlain)) ≠ 0)
    ∧ (IsCStr (named fullwidthA).nameOrEmpty ∧ IsCStr (named halfwidthA).nameOrEmpty
      ∧ (named fullwidthA).nameOrEmpty ≠ (named halfwidthA).nameOrEmpty
      ∧ equalCF.CFStringCompare fullwidthA halfwidthA finderFlags = kCFCompareEqualTo
      ∧ findersort equalCF false (entry (named fullwidthA)) (entry (named halfwidthA)) ≠ 0) :=
  ⟨⟨by decide, by decide, by decide, rfl,
      findersort_ne_zero_of_names_ne equalCF false (named cafeAcute) (named cafePlain)
        (by decide) (by decide) (by decide)⟩,
    ⟨by decide, by decide, by decide, rfl,
      findersort_ne_zero_of_names_ne equalCF false (named fullwidthA) (named halfwidthA)
        (by decide) (by decide) (by decide)⟩⟩

/-- C4: antisymmetry. If swapping the arguments of the collation primitive swaps LESS and
GREATER (so that EQUAL is kept), then with the reversal flag clear
`sign (findersort a b) = -sign (findersort b a)` for all arguments, whatever the outcome of
engine construction for each name. -/
theorem findersort_antisymmetric {σ ρ : Type} (cf : CoreFoundation σ)
    (hswap : ∀ s t, cf.CFStringCompare s t finderFlags = kCFCompareLessThan
      ↔ cf.CFStringCompare t s finderFlags = kCFCompareGreaterThan)
    (a b : Option (Option (Info ρ))) :
    Int.sign (findersort cf false a b) = -Int.sign (findersort cf false b a) := by
  rcases args_cases a b with h | h | ⟨ea, eb, rfl, rfl⟩
  · rw [findersort_null_left cf false a b h, findersort_null_right cf false b a h]; rfl
  · rw [findersort_null_right cf false a b h, findersort_null_left cf false b a h]; rfl
  · rw [findersort_swap cf hswap ea eb, Int.sign_neg]

/-- Witness of C4: the length-comparing engine is antisymmetric; `"img2"` and `"img10"`. -/
theorem findersort_antisymmetric_witness :
    (∀ s t, lengthCF.CFStringCompare s t finderFlags = kCFCompareLessThan
      ↔ lengthCF.CFStringCompare t s finderFlags = kCFCompareGreaterThan)
    ∧ Int.sign (findersort lengthCF false (entry (named img2)) (entry (named img10)))
      = -Int.sign (findersort lengthCF false (entry (named img10)) (entry (named img2))) :=
  ⟨lengthCF_swap, findersort_antisymmetric lengthCF lengthCF_swap _ _⟩

/-- C5: reflexivity. If the collation primitive reports EQUAL when given the same string
twice, then with the reversal flag clear `findersort` is 0 on two entries carrying the same
name, present or absent; in particular absent against absent is 0 and absent against the
empty string is 0. -/
theorem findersort_reflexive {σ ρ : Type} (cf : CoreFoundation σ)
    (hrefl : ∀ s, cf.CFStringCompare s s finderFlags = kCFCompareEqualTo)
    (A : Option CStr) (o o' : ρ) :
    findersort cf false (entry ⟨A, o⟩) (entry ⟨A, o'⟩) = 0
      ∧ findersort cf false (entry ⟨none, o⟩) (entry ⟨none, o'⟩) = 0
      ∧ findersort cf false (entry ⟨none, o⟩) (entry ⟨some [], o'⟩) = 0 := by
  have key : ∀ ea eb : Info ρ, ea.nameOrEmpty = eb.nameOrEmpty →
      findersort cf false (entry ea) (entry eb) = 0 := by
    intro ea eb hn
    cases h1 : cf.CFStringCreateWithFileSystemRepresentation ea.nameOrEmpty with
    | none =>
      rw [findersort_no_engine cf false ea eb (Or.inl h1), hn, strcmp_self]
      rfl
    | some c1 =>
      have h2 : cf.CFStringCreateWithFileSystemRepresentation eb.nameOrEmpty = some c1 := by
        rw [← hn]; exact h1
      have hr := hrefl c1
      simp only [kCFCompareEqualTo] at hr
      rw [findersort_engine cf false ea eb c1 c1 h1 h2, hn, strcmp_self, hr]
      rfl
  exact ⟨key _ _ rfl, key _ _ rfl, key _ _ rfl⟩

/-- Witness of C5: the engine that reports EQUAL for every pair, on the name `"img2"`. -/
theorem findersort_reflexive_witness :
    (∀ s, equalCF.CFStringCompare s s finderFlags = kCFCompareEqualTo)
    ∧ findersort equalCF false (entry ⟨some img2, ()⟩) (entry ⟨some img2, ()⟩) = 0
    ∧ findersort equalCF false (entry ⟨none, ()⟩) (entry ⟨none, ()⟩) = 0
    ∧ findersort equalCF false (entry ⟨none, ()⟩) (entry ⟨some [], ()⟩) = 0 :=
  ⟨fun _ => rfl, findersort_reflexive equalCF (fun _ => rfl) (some img2) () ()⟩

/-- C6: absent-as-empty substitution. For every engine, every other argument `b` and every
value of the reversal flag, an entry whose name is absent compares against `b` exactly as
an entry whose name is the empty string does, on the left and on the right. -/
theorem findersort_absent_as_empty {σ ρ : Type} (cf : CoreFoundation σ) (reverse : Bool)
    (o : ρ) (b : Option (Option (Info ρ))) :
    findersort cf reverse (entry ⟨none, o⟩) b = findersort cf reverse (entry ⟨some [], o⟩) b
      ∧ findersort cf reverse b (entry ⟨none, o⟩)
        = findersort cf reverse b (entry ⟨some [], o⟩) := by
  constructor
  · rcases b with _ | _ | eb <;> rfl
  · rcases b with _ | _ | eb <;> rfl

/-- C7: primary collation takes precedence over byte order. When the engine is constructed
for both names and the collation primitive reports LESS (resp. GREATER), `findersort` with
the reversal flag clear returns -1 (resp. 1), whatever the bytes of the names. -/
theorem findersort_primary_collation {σ ρ : Type} (cf : CoreFoundation σ) (ea eb : Info ρ)
    (c1 c2 : σ)
    (h1 : cf.CFStringCreateWithFileSystemRepresentation ea.nameOrEmpty = some c1)
    (h2 : cf.CFStringCreateWithFileSystemRepresentation eb.nameOrEmpty = some c2) :
    (cf.CFStringCompare c1 c2 finderFlags = kCFCompareLessThan →
        findersort cf false (entry ea) (entry eb) = -1)
      ∧ (cf.CFStringCompare c1 c2 finderFlags = kCFCompareGreaterThan →
        findersort cf false (entry ea) (entry eb) = 1) := by
  rw [findersort_engine cf false ea eb c1 c2 h1 h2]
  simp only [kCFCompareLessThan, kCFCompareGreaterThan]
  constructor
  · intro h; simp [h]
  · intro h; simp [h]

/-- Witness of C7: a primitive reporting LESS for `"img2"` against `"img10"` gives -1,
although `strcmp` puts `"img10"` before `"img2"`; and GREATER for the swapped pair gives 1. -/
theorem findersort_primary_collation_witness :
    (lengthCF.CFStringCreateWithFileSystemRepresentation (named img2).nameOrEmpty = some img2
      ∧ lengthCF.CFStringCreateWithFileSystemRepresentation (named img10).nameOrEmpty
        = some img10
      ∧ lengthCF.CFStringCompare img2 img10 finderFlags = kCFCompareLessThan
      ∧ findersort lengthCF false (entry (named img2)) (entry (named img10)) = -1
      ∧ strcmp img10 img2 < 0)
    ∧ (lengthCF.CFStringCompare img10 img2 finderFlags = kCFCompareGreaterThan
      ∧ findersort lengthCF false (entry (named img10)) (entry (named img2)) = 1) :=
  ⟨⟨rfl, rfl, by decide,
      (findersort_primary_collation lengthCF (named img2) (named img10) img2 img10
        rfl rfl).1 (by decide),
      by decide⟩,
    ⟨by decide,
      (findersort_primary_collation lengthCF (named img10) (named img2) img10 img2
        rfl rfl).2 (by decide)⟩⟩

/-- C8: fallback path. When the engine cannot be constructed for at least one of the two
names, `findersort` with the reversal flag clear returns the sign (-1, 0 or 1) of `strcmp`
on the two substituted names, and the result is the same for every collation primitive. -/
theorem findersort_fallback_path {σ ρ : Type} (create : CStr → Option σ)
    (compare compare' : σ → σ → Nat → Int) (ea eb : Info ρ)
    (h : create ea.nameOrEmpty = none ∨ create eb.nameOrEmpty = none) :
    findersort ⟨create, compare⟩ false (entry ea) (entry eb)
        = Int.sign (strcmp ea.nameOrEmpty eb.nameOrEmpty)
      ∧ findersort ⟨create, compare'⟩ false (entry ea) (entry eb)
        = findersort ⟨create, compare⟩ false (entry ea) (entry eb) := by
  have e1 := findersort_no_engine ⟨create, compare⟩ false ea eb h
  have e2 := findersort_no_engine ⟨create, compare'⟩ false ea eb h
  simp only [Bool.false_eq_true, if_false] at e1 e2
  exact ⟨e1, e2.trans e1.symm⟩

/-- Witness of C8: an engine that constructs for `"img2"` but not for `"img10"`; the result
is the sign of `strcmp`, here 1, also with a primitive that would report LESS. -/
theorem findersort_fallback_path_witness :
    (shortCF.CFStringCreateWithFileSystemRepresentation (named img2).nameOrEmpty = none
      ∨ shortCF.CFStringCreateWithFileSystemRepresentation (named img10).nameOrEmpty = none)
    ∧ findersort ⟨shortCF.CFStringCreateWithFileSystemRepresentation,
          shortCF.CFStringCompare⟩ false (entry (named img2)) (entry (named img10))
        = Int.sign (strcmp (named img2).nameOrEmpty (named img10).nameOrEmpty)
    ∧ findersort ⟨shortCF.CFStringCreateWithFileSystemRepresentation,
          lengthCF.CFStringCompare⟩ false (entry (named img2)) (entry (named img10))
        = findersort ⟨shortCF.CFStringCreateWithFileSystemRepresentation,
          shortCF.CFStringCompare⟩ false (entry (named img2)) (entry (named img10))
    ∧ Int.sign (strcmp (named img2).nameOrEmpty (named img10).nameOrEmpty) = 1 :=
  ⟨Or.inr (by decide),
    (findersort_fallback_path shortCF.CFStringCreateWithFileSystemRepresentation
      shortCF.CFStringCompare lengthCF.CFStringCompare (named img2) (named img10)
      (Or.inr (by decide))).1,
    (findersort_fallback_path shortCF.CFStringCreateWithFileSystemRepresentation
      shortCF.CFStringCompare lengthCF.CFStringCompare (named img2) (named img10)
      (Or.inr (by decide))).2,
    by decide⟩

/-- C9: fallback total order. When the engine cannot be constructed for any name,
`findersort` with the reversal flag clear is a total order on names, whatever the collation
primitive: it is 0 on equal names, `findersort a b = -findersort b a`, it is 0 only if the
two names (well-formed C strings) are byte-identical, `findersort a b ≤ 0` with
`findersort b c ≤ 0` gives `findersort a c ≤ 0`, and any two names are comparable. -/
theorem findersort_fallback_total_order {σ ρ : Type} (cf : CoreFoundation σ)
    (hfail : ∀ n, cf.CFStringCreateWithFileSystemRepresentation n = none)
    (ea eb ec : Info ρ) :
    findersort cf false (entry ea) (entry ea) = 0
      ∧ (ea.nameOrEmpty = eb.nameOrEmpty → findersort cf false (entry ea) (entry eb) = 0)
      ∧ findersort cf false (entry ea) (entry eb) = -findersort cf false (entry eb) (entry ea)
      ∧ (IsCStr ea.nameOrEmpty → IsCStr eb.nameOrEmpty →
          findersort cf false (entry ea) (entry eb) = 0 → ea.nameOrEmpty = eb.nameOrEmpty)
      ∧ (findersort cf false (entry ea) (entry eb) ≤ 0 →
          findersort cf false (entry eb) (entry ec) ≤ 0 →
          findersort cf false (entry ea) (entry ec) ≤ 0)
      ∧ (findersort cf false (entry ea) (entry eb) ≤ 0
          ∨ findersort cf false (entry eb) (entry ea) ≤ 0) := by
  have hv : ∀ x y : Info ρ, findersort cf false (entry x) (entry y)
      = Int.sign (strcmp x.nameOrEmpty y.nameOrEmpty) := by
    intro x y
    rw [findersort_no_engine cf false x y (Or.inl (hfail _))]
    rfl
  rw [hv ea ea, hv ea eb, hv eb ea, hv eb ec, hv ea ec]
  refine ⟨?_, ?_, ?_, ?_, ?_, ?_⟩
  · rw [strcmp_self]; rfl
  · intro hn
    rw [hn, strcmp_self]; rfl
  · exact (sign_strcmp_swap eb.nameOrEmpty ea.nameOrEmpty)
  · intro ha hb h0
    exact strcmp_eq_zero ha hb (Int.sign_eq_zero_iff_zero.mp h0)
  · intro hab hbc
    rw [sign_nonpos_iff] at hab hbc ⊢
    exact strcmp_trans hab hbc
  · rw [sign_nonpos_iff, sign_nonpos_iff, strcmp_swap ea.nameOrEmpty eb.nameOrEmpty]
    omega

/-- Witness of C9: the engine whose construction always fails, on the names `"cafe"`,
`"img10"`, `"img2"` (in ascending byte order) and on `"img2"` against itself. -/
theorem findersort_fallback_total_order_witness :
    (∀ n, failCF.CFStringCreateWithFileSystemRepresentation n = none)
    ∧ (findersort failCF false (entry (named cafePlain)) (entry (named img10)) ≤ 0
      ∧ findersort failCF false (entry (named img10)) (entry (named img2)) ≤ 0
      ∧ findersort failCF false (entry (named cafePlain)) (entry (named img2)) ≤ 0
      ∧ findersort failCF false (entry (named cafePlain)) (entry (named img10))
        = -findersort failCF false (entry (named img10)) (entry (named cafePlain)))
    ∧ (IsCStr (named img2).nameOrEmpty
      ∧ findersort failCF false (entry (named img2)) (entry (named img2)) = 0
      ∧ (named img2).nameOrEmpty = (named img2).nameOrEmpty) :=
  ⟨fun _ => rfl,
    ⟨by decide, by decide,
      (findersort_fallback_total_order failCF (fun _ => rfl) (named cafePlain) (named img10)
        (named img2)).2.2.2.2.1 (by decide) (by decide),
      (findersort_fallback_total_order failCF (fun _ => rfl) (named cafePlain) (named img10)
        (named img2)).2.2.1⟩,
    ⟨by decide,
      (findersort_fallback_total_order failCF (fun _ => rfl) (named img2) (named img2)
        (named img2)).1,
      (findersort_fallback_total_order failCF (fun _ => rfl) (named img2) (named img2)
        (named img2)).2.2.2.1 (by decide) (by decide) (by decide)⟩⟩

/-- C10: end-to-end reversal of a sort. Let the collation primitive be a total preorder
(swapping its arguments swaps LESS and GREATER, and not-GREATER is transitive) and the
engine be constructed for every name. For a list of entries whose names are well-formed C
strings with pairwise different bytes, a permutation sorted ascending under `findersort`
with the reversal flag clear exists, any two such permutations `P` and `P'` are equal, and
every permutation `Q` sorted ascending with the flag set is the reverse of `P`. Sorted
ascending means that the comparator is at most 0 on each two neighbours. -/
theorem findersort_sort_reverse {σ ρ : Type} (cf : CoreFoundation σ)
    (hswap : ∀ s t, cf.CFStringCompare s t finderFlags = kCFCompareLessThan
      ↔ cf.CFStringCompare t s finderFlags = kCFCompareGreaterThan)
    (htrans : ∀ s t u, cf.CFStringCompare s t finderFlags ≠ kCFCompareGreaterThan →
      cf.CFStringCompare t u finderFlags ≠ kCFCompareGreaterThan →
      cf.CFStringCompare s u finderFlags ≠ kCFCompareGreaterThan)
    (hcreate : ∀ n, cf.CFStringCreateWithFileSystemRepresentation n ≠ none)
    (l P P' Q : List (Info ρ))
    (hwf : ∀ e ∈ l, IsCStr e.nameOrEmpty)
    (hdistinct : (l.map Info.nameOrEmpty).Nodup)
    (hP : P.Perm l) (hPs : P.Chain' (Ascending cf false))
    (hP' : P'.Perm l) (hPs' : P'.Chain' (Ascending cf false))
    (hQ : Q.Perm l) (hQs : Q.Chain' (Ascending cf true)) :
    (∃ S : List (Info ρ), S.Perm l ∧ S.Chain' (Ascending cf false))
      ∧ P' = P ∧ Q = P.reverse := by
  have htr : ∀ x y z : Info ρ, Ascending cf false x y → Ascending cf false y z →
      Ascending cf false x z := by
    intro x y z hxy hyz
    obtain ⟨c1, h1⟩ := Option.ne_none_iff_exists'.mp (hcreate x.nameOrEmpty)
    obtain ⟨c2, h2⟩ := Option.ne_none_iff_exists'.mp (hcreate y.nameOrEmpty)
    obtain ⟨c3, h3⟩ := Option.ne_none_iff_exists'.mp (hcreate z.nameOrEmpty)
    exact findersort_engine_trans cf hswap htrans x y z c1 c2 c3 h1 h2 h3 hxy hyz
  haveI instTrans : IsTrans (Info ρ) (Ascending cf false) := ⟨htr⟩
  haveI instTotal : IsTotal (Info ρ) (Ascending cf false) := ⟨by
    intro x y
    unfold Ascending
    rw [findersort_swap cf hswap x y]
    omega⟩
  have hanti : ∀ S : List (Info ρ), S.Perm l → ∀ x ∈ S, ∀ y ∈ S,
      Ascending cf false x y → Ascending cf false y x → x = y := by
    intro S hS x hx y hy hxy hyx
    have hxl : x ∈ l := hS.mem_iff.mp hx
    have hyl : y ∈ l := hS.mem_iff.mp hy
    unfold Ascending at hxy hyx
    rw [findersort_swap cf hswap y x] at hyx
    have h0 : findersort cf false (entry x) (entry y) = 0 := by omega
    exact List.inj_on_of_nodup_map hdistinct hxl hyl
      (findersort_eq_zero_names cf x y (hwf x hxl) (hwf y hyl) h0)
  have huniq : ∀ S T : List (Info ρ), S.Perm l → T.Perm l → S.Chain' (Ascending cf false) →
      T.Chain' (Ascending cf false) → S = T := by
    intro S T hS hT hSs hTs
    exact pairwise_perm_unique (Ascending cf false) S T (hS.trans hT.symm)
      (List.chain'_iff_pairwise.mp hSs) (List.chain'_iff_pairwise.mp hTs) (hanti S hS)
  refine ⟨⟨l.insertionSort (Ascending cf false), List.perm_insertionSort _ l,
    (List.sorted_insertionSort (Ascending cf false) l).chain'⟩, huniq P' P hP' hP hPs' hPs, ?_⟩
  have hflip : Q.Chain' (flip (Ascending cf false)) := by
    refine hQs.imp ?_
    intro x y hxy
    unfold Ascending at hxy
    rw [findersort_reverse, findersort_swap cf hswap x y] at hxy
    show findersort cf false (entry y) (entry x) ≤ 0
    omega
  have hrev : Q.reverse = P :=
    huniq Q.reverse P ((List.reverse_perm Q).trans hQ) hP (List.chain'_reverse.mpr hflip) hPs
  rw [← hrev, List.reverse_reverse]

/-- Witness of C10: the list `"img10.txt"`, `"img2.txt"`, `"café.txt"`, `"cafe.txt"`,
`"Ａpple"`, `"Apple"` under the length-comparing engine. -/
theorem findersort_sort_reverse_witness :
    (∀ e ∈ sampleList, IsCStr e.nameOrEmpty)
    ∧ (sampleList.map Info.nameOrEmpty).Nodup
    ∧ sampleSorted.Perm sampleList
    ∧ sampleSorted.Chain' (Ascending lengthCF false)
    ∧ sampleSortedReverse.Perm sampleList
    ∧ sampleSortedReverse.Chain' (Ascending lengthCF true)
    ∧ (∃ S : List (Info Unit), S.Perm sampleList ∧ S.Chain' (Ascending lengthCF false))
    ∧ sampleSorted = sampleSorted
    ∧ sampleSortedReverse = sampleSorted.reverse :=
  have hP : sampleSorted.Chain' (Ascending lengthCF false) := by
    simp only [sampleSorted, List.chain'_cons, List.chain'_singleton, and_true]
    decide
  have hQ : sampleSortedReverse.Chain' (Ascending lengthCF true) := by
    simp only [sampleSortedReverse, List.chain'_cons, List.chain'_singleton, and_true]
    decide
  ⟨by decide, by decide, by decide, hP, by decide, hQ,
    findersort_sort_reverse lengthCF lengthCF_swap lengthCF_trans (fun _ => Option.some_ne_none _)
      sampleList sampleSorted sampleSorted sampleSortedReverse
      (by decide) (by decide) (by decide) hP (by decide) hP (by decide) hQ⟩

/-! ### The comparator on the bookkeeping state -/

theorem erase_two {σ : Type} [DecidableEq σ] (c1 c2 : σ) (l : List σ) :
    ((c2 :: c1 :: l).erase c1).erase c2 = l := by
  by_cases h : c2 = c1
  · subst h
    simp
  · rw [List.erase_cons_tail (by simpa using h), List.erase_cons_head, List.erase_cons_head]

theorem findersortM_null {σ ρ : Type} [DecidableEq σ] (cf : CoreFoundation σ) (reverse : Bool)
    (a b : Option (Option (Info ρ))) (st : CFState σ)
    (h : (a = none ∨ a = some none) ∨ (b = none ∨ b = some none)) :
    findersortM cf reverse a b st = (0, st) := by
  rcases h with (rfl | rfl) | (rfl | rfl)
  · simp [findersortM]
  · simp [findersortM]
  · rcases a with _ | _ | ea <;> simp [findersortM]
  · rcases a with _ | _ | ea <;> simp [findersortM]

theorem findersortM_both {σ ρ : Type} [DecidableEq σ] (cf : CoreFoundation σ) (reverse : Bool)
    (ea eb : Info ρ) (st : CFState σ) (c1 c2 : σ)
    (h1 : cf.CFStringCreateWithFileSystemRepresentation ea.nameOrEmpty = some c1)
    (h2 : cf.CFStringCreateWithFileSystemRepresentation eb.nameOrEmpty = some c2) :
    findersortM cf reverse (entry ea) (entry eb) st =
      (findersort cf reverse (entry ea) (entry eb),
        ⟨st.live, c2 :: c1 :: st.created, c2 :: c1 :: st.released,
          (c1, c2) :: st.compared⟩) := by
  unfold Info.nameOrEmpty at h1 h2
  simp only [findersortM, findersort, entry, createString, compareString, CFRelease, h1, h2]
  split_ifs <;> simp_all [erase_two]

theorem findersortM_first {σ ρ : Type} [DecidableEq σ] (cf : CoreFoundation σ) (reverse : Bool)
    (ea eb : Info ρ) (st : CFState σ) (c1 : σ)
    (h1 : cf.CFStringCreateWithFileSystemRepresentation ea.nameOrEmpty = some c1)
    (h2 : cf.CFStringCreateWithFileSystemRepresentation eb.nameOrEmpty = none) :
    findersortM cf reverse (entry ea) (entry eb) st =
      (findersort cf reverse (entry ea) (entry eb),
        ⟨st.live, c1 :: st.created, c1 :: st.released, st.compared⟩) := by
  unfold Info.nameOrEmpty at h1 h2
  simp only [findersortM, findersort, entry, createString, CFRelease, h1, h2,
    List.erase_cons_head]

theorem findersortM_second {σ ρ : Type} [DecidableEq σ] (cf : CoreFoundation σ)
    (reverse : Bool) (ea eb : Info ρ) (st : CFState σ) (c2 : σ)
    (h1 : cf.CFStringCreateWithFileSystemRepresentation ea.nameOrEmpty = none)
    (h2 : cf.CFStringCreateWithFileSystemRepresentation eb.nameOrEmpty = some c2) :
    findersortM cf reverse (entry ea) (entry eb) st =
      (findersort cf reverse (entry ea) (entry eb),
        ⟨st.live, c2 :: st.created, c2 :: st.released, st.compared⟩) := by
  unfold Info.nameOrEmpty at h1 h2
  simp only [findersortM, findersort, entry, createString, CFRelease, h1, h2,
    List.erase_cons_head]

theorem findersortM_neither {σ ρ : Type} [DecidableEq σ] (cf : CoreFoundation σ)
    (reverse : Bool) (ea eb : Info ρ) (st : CFState σ)
    (h1 : cf.CFStringCreateWithFileSystemRepresentation ea.nameOrEmpty = none)
    (h2 : cf.CFStringCreateWithFileSystemRepresentation eb.nameOrEmpty = none) :
    findersortM cf reverse (entry ea) (entry eb) st =
      (findersort cf reverse (entry ea) (entry eb), st) := by
  unfold Info.nameOrEmpty at h1 h2
  simp only [findersortM, findersort, entry, createString, h1, h2]

theorem findersort_entry_ne_zero {σ ρ : Type} (cf : CoreFoundation σ) (reverse : Bool)
    (ea eb : Info ρ) (ha : IsCStr ea.nameOrEmpty) (hb : IsCStr eb.nameOrEmpty)
    (hne : ea.nameOrEmpty ≠ eb.nameOrEmpty) :
    findersort cf reverse (entry ea) (entry eb) ≠ 0 := by
  have key : findersort cf false (entry ea) (entry eb) ≠ 0 :=
    fun h => hne (findersort_eq_zero_names cf ea eb ha hb h)
  cases reverse with
  | false => exact key
  | true =>
    rw [findersort_reverse]
    omega

theorem gapCF_swap (s t : CStr) :
    gapCF.CFStringCompare s t finderFlags = kCFCompareLessThan
      ↔ gapCF.CFStringCompare t s finderFlags = kCFCompareGreaterThan :=
  lengthCF_swap s t

theorem gapCF_trans (s t u : CStr)
    (hst : gapCF.CFStringCompare s t finderFlags ≠ kCFCompareGreaterThan)
    (htu : gapCF.CFStringCompare t u finderFlags ≠ kCFCompareGreaterThan) :
    gapCF.CFStringCompare s u finderFlags ≠ kCFCompareGreaterThan :=
  lengthCF_trans s t u hst htu

/-! ### Tie-break, transitivity, magnitudes, resources and null entries -/

/-- C11: deterministic tie-break. When the engine is constructed for both names and the
collation primitive reports EQUAL, `findersort` with the reversal flag clear returns the
sign of `strcmp` on the substituted, non-normalised names; so it is 0 on identical names and,
for well-formed C strings, only on identical names. -/
theorem findersort_tie_break {σ ρ : Type} (cf : CoreFoundation σ) (ea eb : Info ρ)
    (c1 c2 : σ)
    (h1 : cf.CFStringCreateWithFileSystemRepresentation ea.nameOrEmpty = some c1)
    (h2 : cf.CFStringCreateWithFileSystemRepresentation eb.nameOrEmpty = some c2)
    (heq : cf.CFStringCompare c1 c2 finderFlags = kCFCompareEqualTo) :
    findersort cf false (entry ea) (entry eb)
        = Int.sign (strcmp ea.nameOrEmpty eb.nameOrEmpty)
      ∧ (ea.nameOrEmpty = eb.nameOrEmpty → findersort cf false (entry ea) (entry eb) = 0)
      ∧ (IsCStr ea.nameOrEmpty → IsCStr eb.nameOrEmpty →
          findersort cf false (entry ea) (entry eb) = 0 →
          ea.nameOrEmpty = eb.nameOrEmpty) := by
  have hv : findersort cf false (entry ea) (entry eb)
      = Int.sign (strcmp ea.nameOrEmpty eb.nameOrEmpty) := by
    simp only [kCFCompareEqualTo] at heq
    rw [findersort_engine cf false ea eb c1 c2 h1 h2, heq]
    rfl
  refine ⟨hv, ?_, ?_⟩
  · intro hn
    rw [hv, hn, strcmp_self]
    rfl
  · intro ha hb h0
    exact findersort_eq_zero_names cf ea eb ha hb h0

/-- Witness of C11: `"café"` against `"cafe"` under a primitive that reports EQUAL gives
the sign of `strcmp`, which is 1; `"img2"` against itself gives 0. -/
theorem findersort_tie_break_witness :
    (equalCF.CFStringCompare cafeAcute cafePlain finderFlags = kCFCompareEqualTo
      ∧ findersort equalCF false (entry (named cafeAcute)) (entry (named cafePlain))
        = Int.sign (strcmp (named cafeAcute).nameOrEmpty (named cafePlain).nameOrEmpty)
      ∧ Int.sign (strcmp (named cafeAcute).nameOrEmpty (named cafePlain).nameOrEmpty) = 1)
    ∧ ((named img2).nameOrEmpty = (named img2).nameOrEmpty
      ∧ findersort equalCF false (entry (named img2)) (entry (named img2)) = 0) :=
  ⟨⟨rfl,
      (findersort_tie_break equalCF (named cafeAcute) (named cafePlain) cafeAcute cafePlain
        rfl rfl rfl).1,
      by decide⟩,
    ⟨rfl,
      (findersort_tie_break equalCF (named img2) (named img2) img2 img2
        rfl rfl rfl).2.1 rfl⟩⟩

/-- C12: transitivity with the engine available. If the collation primitive is a total
preorder (swapping its arguments swaps LESS and GREATER, and not-GREATER is transitive) and
the engine is constructed for every name, then with the reversal flag clear
`findersort a b ≤ 0` and `findersort b c ≤ 0` give `findersort a c ≤ 0`; any two entries
are comparable, and two well-formed names ordered both ways are byte-identical. -/
theorem findersort_engine_total_order {σ ρ : Type} (cf : CoreFoundation σ)
    (hswap : ∀ s t, cf.CFStringCompare s t finderFlags = kCFCompareLessThan
      ↔ cf.CFStringCompare t s finderFlags = kCFCompareGreaterThan)
    (htrans : ∀ s t u, cf.CFStringCompare s t finderFlags ≠ kCFCompareGreaterThan →
      cf.CFStringCompare t u finderFlags ≠ kCFCompareGreaterThan →
      cf.CFStringCompare s u finderFlags ≠ kCFCompareGreaterThan)
    (hcreate : ∀ n, cf.CFStringCreateWithFileSystemRepresentation n ≠ none)
    (ea eb ec : Info ρ) :
    (findersort cf false (entry ea) (entry eb) ≤ 0 →
        findersort cf false (entry eb) (entry ec) ≤ 0 →
        findersort cf false (entry ea) (entry ec) ≤ 0)
      ∧ (findersort cf false (entry ea) (entry eb) ≤ 0
          ∨ findersort cf false (entry eb) (entry ea) ≤ 0)
      ∧ (IsCStr ea.nameOrEmpty → IsCStr eb.nameOrEmpty →
          findersort cf false (entry ea) (entry eb) ≤ 0 →
          findersort cf false (entry eb) (entry ea) ≤ 0 →
          ea.nameOrEmpty = eb.nameOrEmpty) := by
  obtain ⟨c1, h1⟩ := Option.ne_none_iff_exists'.mp (hcreate ea.nameOrEmpty)
  obtain ⟨c2, h2⟩ := Option.ne_none_iff_exists'.mp (hcreate eb.nameOrEmpty)
  obtain ⟨c3, h3⟩ := Option.ne_none_iff_exists'.mp (hcreate ec.nameOrEmpty)
  have hsw := findersort_swap cf hswap ea eb
  refine ⟨findersort_engine_trans cf hswap htrans ea eb ec c1 c2 c3 h1 h2 h3, ?_, ?_⟩
  · omega
  · intro ha hb hab hba
    exact findersort_eq_zero_names cf ea eb ha hb (by omega)

/-- Witness of C12: the length-comparing engine on `"Apple"`, `"cafe.txt"`, `"img2.txt"`:
the first pair is decided by the primitive, the second by the byte tie-break. -/
theorem findersort_engine_total_order_witness :
    (∀ s t, lengthCF.CFStringCompare s t finderFlags = kCFCompareLessThan
      ↔ lengthCF.CFStringCompare t s finderFlags = kCFCompareGreaterThan)
    ∧ (∀ n, lengthCF.CFStringCreateWithFileSystemRepresentation n ≠ none)
    ∧ findersort lengthCF false (entry (named halfwidthApple)) (entry (named cafePlainTxt)) ≤ 0
    ∧ findersort lengthCF false (entry (named cafePlainTxt)) (entry (named img2Txt)) ≤ 0
    ∧ findersort lengthCF false (entry (named halfwidthApple)) (entry (named img2Txt)) ≤ 0 :=
  ⟨lengthCF_swap, fun _ => Option.some_ne_none _, by decide, by decide,
    (findersort_engine_total_order lengthCF lengthCF_swap lengthCF_trans
      (fun _ => Option.some_ne_none _) (named halfwidthApple) (named cafePlainTxt)
      (named img2Txt)).1 (by decide) (by decide)⟩

/-- Counterexample to C13 as stated: the length-comparing primitive is a total preorder, the
engine is constructed for `"aa"` and `"c"` but not for `"b"`; then `"aa"` is before `"b"`
and `"b"` before `"c"` by `strcmp`, while `"aa"` is after `"c"` by the primitive. -/
theorem findersort_mixed_fallback_not_transitive :
    (∀ s t, gapCF.CFStringCompare s t finderFlags = kCFCompareLessThan
      ↔ gapCF.CFStringCompare t s finderFlags = kCFCompareGreaterThan)
    ∧ (∀ s t u, gapCF.CFStringCompare s t finderFlags ≠ kCFCompareGreaterThan →
      gapCF.CFStringCompare t u finderFlags ≠ kCFCompareGreaterThan →
      gapCF.CFStringCompare s u finderFlags ≠ kCFCompareGreaterThan)
    ∧ gapCF.CFStringCreateWithFileSystemRepresentation nameAA = some nameAA
    ∧ gapCF.CFStringCreateWithFileSystemRepresentation nameB = none
    ∧ gapCF.CFStringCreateWithFileSystemRepresentation nameC = some nameC
    ∧ findersort gapCF false (entry (named nameAA)) (entry (named nameB)) ≤ 0
    ∧ findersort gapCF false (entry (named nameB)) (entry (named nameC)) ≤ 0
    ∧ ¬ findersort gapCF false (entry (named nameAA)) (entry (named nameC)) ≤ 0 :=
  ⟨gapCF_swap, gapCF_trans, by decide, by decide, by decide, by decide, by decide, by decide⟩

/-- C13, amended: for a collation primitive that is a total preorder, transitivity holds for
three names whose three pairs take the same path, that is, when the engine is constructed
for all three names or fails for at least two of them: then with the reversal flag clear
`findersort a b ≤ 0` and `findersort b c ≤ 0` give `findersort a c ≤ 0`. -/
theorem findersort_same_path_transitive {σ ρ : Type} (cf : CoreFoundation σ)
    (hswap : ∀ s t, cf.CFStringCompare s t finderFlags = kCFCompareLessThan
      ↔ cf.CFStringCompare t s finderFlags = kCFCompareGreaterThan)
    (htrans : ∀ s t u, cf.CFStringCompare s t finderFlags ≠ kCFCompareGreaterThan →
      cf.CFStringCompare t u finderFlags ≠ kCFCompareGreaterThan →
      cf.CFStringCompare s u finderFlags ≠ kCFCompareGreaterThan)
    (ea eb ec : Info ρ)
    (hpath :
      (cf.CFStringCreateWithFileSystemRepresentation ea.nameOrEmpty ≠ none
        ∧ cf.CFStringCreateWithFileSystemRepresentation eb.nameOrEmpty ≠ none
        ∧ cf.CFStringCreateWithFileSystemRepresentation ec.nameOrEmpty ≠ none)
      ∨ (cf.CFStringCreateWithFileSystemRepresentation ea.nameOrEmpty = none
        ∧ cf.CFStringCreateWithFileSystemRepresentation eb.nameOrEmpty = none)
      ∨ (cf.CFStringCreateWithFileSystemRepresentation ea.nameOrEmpty = none
        ∧ cf.CFStringCreateWithFileSystemRepresentation ec.nameOrEmpty = none)
      ∨ (cf.CFStringCreateWithFileSystemRepresentation eb.nameOrEmpty = none
        ∧ cf.CFStringCreateWithFileSystemRepresentation ec.nameOrEmpty = none))
    (hab : findersort cf false (entry ea) (entry eb) ≤ 0)
    (hbc : findersort cf false (entry eb) (entry ec) ≤ 0) :
    findersort cf false (entry ea) (entry ec) ≤ 0 := by
  have fallback : (cf.CFStringCreateWithFileSystemRepresentation ea.nameOrEmpty = none
        ∨ cf.CFStringCreateWithFileSystemRepresentation eb.nameOrEmpty = none) →
      (cf.CFStringCreateWithFileSystemRepresentation eb.nameOrEmpty = none
        ∨ cf.CFStringCreateWithFileSystemRepresentation ec.nameOrEmpty = none) →
      (cf.CFStringCreateWithFileSystemRepresentation ea.nameOrEmpty = none
        ∨ cf.CFStringCreateWithFileSystemRepresentation ec.nameOrEmpty = none) →
      findersort cf false (entry ea) (entry ec) ≤ 0 := by
    intro p q r
    rw [findersort_no_engine cf false ea eb p] at hab
    rw [findersort_no_engine cf false eb ec q] at hbc
    rw [findersort_no_engine cf false ea ec r]
    simp only [Bool.false_eq_true, if_false, sign_nonpos_iff] at hab hbc ⊢
    exact strcmp_trans hab hbc
  rcases hpath with ⟨pa, pb, pc⟩ | ⟨pa, pb⟩ | ⟨pa, pc⟩ | ⟨pb, pc⟩
  · obtain ⟨c1, h1⟩ := Option.ne_none_iff_exists'.mp pa
    obtain ⟨c2, h2⟩ := Option.ne_none_iff_exists'.mp pb
    obtain ⟨c3, h3⟩ := Option.ne_none_iff_exists'.mp pc
    exact findersort_engine_trans cf hswap htrans ea eb ec c1 c2 c3 h1 h2 h3 hab hbc
  · exact fallback (Or.inl pa) (Or.inl pb) (Or.inl pa)
  · exact fallback (Or.inl pa) (Or.inr pc) (Or.inl pa)
  · exact fallback (Or.inr pb) (Or.inl pb) (Or.inr pc)

/-- Witness of C13, amended: under the engine that fails only for `"b"`, the names `"c"`,
`"aa"`, `"aaa"` (all constructed) and the names `"b"`, `"b"`, `"c"` (two failures). -/
theorem findersort_same_path_transitive_witness :
    (findersort gapCF false (entry (named nameC)) (entry (named nameAA)) ≤ 0
      ∧ findersort gapCF false (entry (named nameAA)) (entry (named nameAAA)) ≤ 0
      ∧ findersort gapCF false (entry (named nameC)) (entry (named nameAAA)) ≤ 0)
    ∧ (findersort gapCF false (entry (named nameB)) (entry (named nameB)) ≤ 0
      ∧ findersort gapCF false (entry (named nameB)) (entry (named nameC)) ≤ 0
      ∧ findersort gapCF false (entry (named nameB)) (entry (named nameC)) ≤ 0) :=
  ⟨⟨by decide, by decide,
      findersort_same_path_transitive gapCF gapCF_swap gapCF_trans (named nameC)
        (named nameAA) (named nameAAA) (Or.inl (by decide)) (by decide) (by decide)⟩,
    ⟨by decide, by decide,
      findersort_same_path_transitive gapCF gapCF_swap gapCF_trans (named nameB)
        (named nameB) (named nameC) (Or.inr (Or.inl (by decide))) (by decide) (by decide)⟩⟩

/-- Counterexample to C14 as stated: the engine is constructed for `"b"` and `"aaa"`, the
primitive returns -2, a negative value, and `findersort` with the reversal flag clear
returns 1, the sign of `strcmp`, not the sign -1 of the primitive's result. -/
theorem findersort_magnitude_not_normalised :
    diffCF.CFStringCreateWithFileSystemRepresentation (named nameB).nameOrEmpty = some nameB
    ∧ diffCF.CFStringCreateWithFileSystemRepresentation (named nameAAA).nameOrEmpty
      = some nameAAA
    ∧ diffCF.CFStringCompare nameB nameAAA finderFlags = -2
    ∧ Int.sign (diffCF.CFStringCompare nameB nameAAA finderFlags) = -1
    ∧ findersort diffCF false (entry (named nameB)) (entry (named nameAAA)) = 1
    ∧ findersort diffCF false (entry (named nameB)) (entry (named nameAAA))
      ≠ Int.sign (diffCF.CFStringCompare nameB nameAAA finderFlags) := by
  refine ⟨rfl, rfl, ?_, ?_, ?_, ?_⟩ <;> decide

/-- C14, amended: when the engine is constructed for both names and the collation primitive
returns one of the two nonzero `CFComparisonResult` values, `kCFCompareLessThan` (-1) or
`kCFCompareGreaterThan` (1), `findersort` with the reversal flag clear returns the sign of
that value; every other value of the primitive is handled as EQUAL and the result is the
sign of `strcmp` on the two names, whose magnitude is the one that is normalised. -/
theorem findersort_collation_result {σ ρ : Type} (cf : CoreFoundation σ) (ea eb : Info ρ)
    (c1 c2 : σ)
    (h1 : cf.CFStringCreateWithFileSystemRepresentation ea.nameOrEmpty = some c1)
    (h2 : cf.CFStringCreateWithFileSystemRepresentation eb.nameOrEmpty = some c2) :
    ((cf.CFStringCompare c1 c2 finderFlags = kCFCompareLessThan
          ∨ cf.CFStringCompare c1 c2 finderFlags = kCFCompareGreaterThan) →
        findersort cf false (entry ea) (entry eb)
          = Int.sign (cf.CFStringCompare c1 c2 finderFlags))
      ∧ (cf.CFStringCompare c1 c2 finderFlags ≠ kCFCompareLessThan →
          cf.CFStringCompare c1 c2 finderFlags ≠ kCFCompareGreaterThan →
          findersort cf false (entry ea) (entry eb)
            = Int.sign (strcmp ea.nameOrEmpty eb.nameOrEmpty)) := by
  rw [findersort_engine cf false ea eb c1 c2 h1 h2]
  simp only [kCFCompareLessThan, kCFCompareGreaterThan, Bool.false_eq_true, if_false]
  constructor
  · rintro (h | h)
    · rw [h]; rfl
    · rw [h]; rfl
  · intro hl hg
    simp [hl, hg]

/-- Witness of C14, amended: LESS for `"img2"` against `"img10"` gives -1; the value -2 for
`"b"` against `"aaa"` is neither LESS nor GREATER and gives the sign of `strcmp`. -/
theorem findersort_collation_result_witness :
    (lengthCF.CFStringCompare img2 img10 finderFlags = kCFCompareLessThan
      ∧ findersort lengthCF false (entry (named img2)) (entry (named img10))
        = Int.sign (lengthCF.CFStringCompare img2 img10 finderFlags))
    ∧ (diffCF.CFStringCompare nameB nameAAA finderFlags ≠ kCFCompareLessThan
      ∧ diffCF.CFStringCompare nameB nameAAA finderFlags ≠ kCFCompareGreaterThan
      ∧ findersort diffCF false (entry (named nameB)) (entry (named nameAAA))
        = Int.sign (strcmp (named nameB).nameOrEmpty (named nameAAA).nameOrEmpty)) :=
  ⟨⟨by decide,
      (findersort_collation_result lengthCF (named img2) (named img10) img2 img10
        rfl rfl).1 (Or.inl (by decide))⟩,
    ⟨by decide, by decide,
      (findersort_collation_result diffCF (named nameB) (named nameAAA) nameB nameAAA
        rfl rfl).2 (by decide) (by decide)⟩⟩

/-- C15: engine resources are scoped to the call. On every path (null argument or entry,
both constructions succeed, only the first, only the second, neither) the call returns the
value of `findersort`, the live references after the call are those before it, and the
handles released by the call are exactly the handles it created, each once: the same list
of at most two handles is added to the log of creations and to the log of releases. -/
theorem findersort_handles_scoped {σ ρ : Type} [DecidableEq σ] (cf : CoreFoundation σ)
    (reverse : Bool) (a b : Option (Option (Info ρ))) (st : CFState σ) :
    (findersortM cf reverse a b st).1 = findersort cf reverse a b
      ∧ (findersortM cf reverse a b st).2.live = st.live
      ∧ ∃ new : List σ, new.length ≤ 2
          ∧ (findersortM cf reverse a b st).2.created = new ++ st.created
          ∧ (findersortM cf reverse a b st).2.released = new ++ st.released := by
  rcases args_cases a b with h | h | ⟨ea, eb, rfl, rfl⟩
  · rw [findersortM_null cf reverse a b st (Or.inl h), findersort_null_left cf reverse a b h]
    exact ⟨rfl, rfl, [], by simp, rfl, rfl⟩
  · rw [findersortM_null cf reverse a b st (Or.inr h), findersort_null_right cf reverse a b h]
    exact ⟨rfl, rfl, [], by simp, rfl, rfl⟩
  · cases h1 : cf.CFStringCreateWithFileSystemRepresentation ea.nameOrEmpty with
    | none =>
      cases h2 : cf.CFStringCreateWithFileSystemRepresentation eb.nameOrEmpty with
      | none =>
        rw [findersortM_neither cf reverse ea eb st h1 h2]
        exact ⟨rfl, rfl, [], by simp, rfl, rfl⟩
      | some c2 =>
        rw [findersortM_second cf reverse ea eb st c2 h1 h2]
        exact ⟨rfl, rfl, [c2], by simp, rfl, rfl⟩
    | some c1 =>
      cases h2 : cf.CFStringCreateWithFileSystemRepresentation eb.nameOrEmpty with
      | none =>
        rw [findersortM_first cf reverse ea eb st c1 h1 h2]
        exact ⟨rfl, rfl, [c1], by simp, rfl, rfl⟩
      | some c2 =>
        rw [findersortM_both cf reverse ea eb st c1 c2 h1 h2]
        exact ⟨rfl, rfl, [c2, c1], by simp, rfl, rfl⟩

/-- C16: null-entry shortcut. If either argument pointer or either pointed-to entry is null,
`findersort` returns 0 for every other argument, every engine and every value of the
reversal flag, and the bookkeeping state is untouched: nothing is created, compared or
released. An entry whose name is absent is not such a case: against an entry with a
well-formed nonempty name it compares as the empty string and the result is not 0. -/
theorem findersort_null_entry {σ ρ : Type} [DecidableEq σ] (cf : CoreFoundation σ)
    (reverse : Bool) (a b : Option (Option (Info ρ))) (st : CFState σ) (o : ρ) (eb : Info ρ)
    (h : a = none ∨ a = some none ∨ b = none ∨ b = some none) :
    findersort cf reverse a b = 0
      ∧ findersortM cf reverse a b st = (0, st)
      ∧ (IsCStr eb.nameOrEmpty → eb.nameOrEmpty ≠ [] →
          findersort cf reverse (entry ⟨none, o⟩) (entry eb) ≠ 0) := by
  have h' : (a = none ∨ a = some none) ∨ (b = none ∨ b = some none) := by
    rcases h with h | h | h | h
    · exact Or.inl (Or.inl h)
    · exact Or.inl (Or.inr h)
    · exact Or.inr (Or.inl h)
    · exact Or.inr (Or.inr h)
  refine ⟨?_, findersortM_null cf reverse a b st h', ?_⟩
  · rcases h' with h' | h'
    · exact findersort_null_left cf reverse a b h'
    · exact findersort_null_right cf reverse a b h'
  · intro hb hne
    refine findersort_entry_ne_zero cf reverse ⟨none, o⟩ eb ?_ hb ?_
    · intro c hc
      exact absurd hc (List.not_mem_nil c)
    · exact fun e => hne e.symm

/-- Witness of C16: a null entry against the entry `"img2"`, with the flag set, on a state
that already holds a reference; and the nameless entry against `"img2"`. -/
theorem findersort_null_entry_witness :
    ((some none : Option (Option (Info Unit))) = none
        ∨ (some none : Option (Option (Info Unit))) = some none
        ∨ entry (named img2) = none ∨ entry (named img2) = some none)
    ∧ findersort lengthCF true (some none) (entry (named img2)) = 0
    ∧ findersortM lengthCF true (some none) (entry (named img2)) busyState = (0, busyState)
    ∧ IsCStr (named img2).nameOrEmpty
    ∧ (named img2).nameOrEmpty ≠ []
    ∧ findersort lengthCF true (entry ⟨none, ()⟩) (entry (named img2)) ≠ 0 :=
  ⟨Or.inr (Or.inl rfl),
    (findersort_null_entry lengthCF true (some none) (entry (named img2)) busyState ()
      (named img2) (Or.inr (Or.inl rfl))).1,
    (findersort_null_entry lengthCF true (some none) (entry (named img2)) busyState ()
      (named img2) (Or.inr (Or.inl rfl))).2.1,
    by decide, by decide,
    (findersort_null_entry lengthCF true (some none) (entry (named img2)) busyState ()
      (named img2) (Or.inr (Or.inl rfl))).2.2 (by decide) (by decide)⟩

end TreeMac
